import Mathlib

/-!
Shallow embedding, in Lean, of the change-detection core of `src/mitten.py`
(the Mitten commit-notification watcher), together with theorems settling
the specification claims about it.

Modelling conventions:
* Python dicts keyed by strings become association lists with first-match
  lookup (`dictGet`, Python `dict.get`) and in-place update (`dictSet`,
  Python `d[k] = v`); the program only ever builds dicts with unique keys,
  for which the two representations agree.
* ISO-8601 committer-date strings (`commit['commit']['committer']['date']`)
  are compared lexicographically by the program (`list.sort`), which
  coincides with chronological order, so `committed_at` is embedded as `Nat`.
* The durable file `commit_log.json` is a `FileState`: `absent` (no file),
  `corrupt` (present but not parsable JSON — e.g. empty right after
  `open('commit_log.json', 'w')` truncated it, or a proper prefix of a
  `json.dump` of a dict, neither of which is valid JSON), or `full log`
  (a completed `json.dump` of `log`).
* HTTP traffic is scripted: a fetch consumes responses from a list, one
  response per request issued, so "retry the same request" shows up as
  consuming the next scripted response with pagination state unchanged.
* Webhook posts are recorded in an `emitted` list instead of performing IO;
  sleeps are recorded as second counts.
-/

namespace Mitten

/-- A fetched commit record, reduced to the fields the change-detection core
reads: `sha` (`commit['sha']`) and the committer timestamp
(`commit['commit']['committer']['date']`, embedded as `Nat`, see above). -/
structure Commit where
  sha : String
  committed_at : Nat
deriving DecidableEq

/-- Default record used only to give `List.headD` and `List.getLastD` a
value on branches where the list is known non-empty. -/
def defaultCommit : Commit := ⟨"", 0⟩

/-- The inner dict of `commit_log.json`: sha -> bool. -/
abbrev ShaMap := List (String × Bool)

/-- The commit log: Python dict `repo:branch` key -> dict sha -> bool. -/
abbrev CommitLog := List (String × ShaMap)

/-- Python `dict.get m k`: the value bound to `k`, if any. -/
def dictGet {β : Type} (m : List (String × β)) (k : String) : Option β :=
  match m with
  | [] => none
  | (k', v) :: rest => if k' = k then some v else dictGet rest k

/-- Python `m[k] = v`: replace the binding in place, or append a new one. -/
def dictSet {β : Type} (m : List (String × β)) (k : String) (v : β) :
    List (String × β) :=
  match m with
  | [] => [(k, v)]
  | (k', v') :: rest =>
    if k' = k then (k, v) :: rest else (k', v') :: dictSet rest k v

/-- Durable states of `commit_log.json` (see the module comment). -/
inductive FileState where
  | absent
  | corrupt
  | full (log : CommitLog)
deriving DecidableEq

/-- Embeds `load_commit_log` (mitten.py:127-135): a missing file yields `{}`,
a `json.JSONDecodeError` yields `{}`, otherwise the parsed stored mapping is
returned. -/
def load_commit_log : FileState → CommitLog
  | .absent => []
  | .corrupt => []
  | .full log => log

/-- Embeds `save_commit_log` (mitten.py:138-140): the durable state after the
call has completed is a full dump of the in-memory log. -/
def save_commit_log (commit_log : CommitLog) : FileState :=
  .full commit_log

/-- Durable states `save_commit_log` passes through, in order: the call opens
`commit_log.json` with mode `'w'`, which truncates the file in place (an
empty file, like any proper prefix of the JSON text `json.dump` writes
afterwards, is unparsable, hence `corrupt`), and then the dump completes.
There is no write-to-temp-then-rename step in the source, so a call
interrupted before completion leaves the durable file in the `corrupt`
state of this trace. -/
def save_commit_log_trace (commit_log : CommitLog) : List FileState :=
  [.corrupt, .full commit_log]

/-- Embeds `has_been_logged` (mitten.py:143-144):
`commit_log.get(key, {}).get(commit_sha, False)`. -/
def has_been_logged (key commit_sha : String) (commit_log : CommitLog) : Bool :=
  (dictGet ((dictGet commit_log key).getD []) commit_sha).getD false

/-- In-memory effect of `commit_log[key][commit_sha] = True` together with
the guarding `if key not in commit_log: commit_log[key] = {}` used by both
`log_notified_commit` and `initialize_repo_log`. -/
def logSet (key commit_sha : String) (commit_log : CommitLog) : CommitLog :=
  dictSet commit_log key
    (dictSet ((dictGet commit_log key).getD []) commit_sha true)

/-- Embeds `log_notified_commit` (mitten.py:147-151): ensure `key` has an
entry, set `commit_log[key][commit_sha] = True`, then `save_commit_log`.
Returns the updated in-memory log and the durable state after the save. -/
def log_notified_commit (key commit_sha : String) (commit_log : CommitLog) :
    CommitLog × FileState :=
  let log2 := logSet key commit_sha commit_log
  (log2, save_commit_log log2)

/-- The in-memory state threaded through bootstrap and polling: the durable
file, the per-key watermark dict `latest_commits` (mitten.py:547), and the
SHAs handed to the per-commit Discord webhook so far (`emitted`, in order of
delivery; repo-initialization webhooks are not per-commit notifications and
are not recorded here). -/
structure EngineState where
  file : FileState
  latest_commits : List (String × Nat)
  emitted : List String
deriving DecidableEq

/-- State effect of `notify_discord` (mitten.py:399-491): reload the commit
log from disk (line 403), `log_notified_commit` — which persists — before
the webhook post (line 425 precedes line 489), and record the post in
`emitted`. Message formatting is modelled separately (`splitMessage`). -/
def notify_discord (key : String) (c : Commit) (s : EngineState) : EngineState :=
  let commit_log := load_commit_log s.file
  let r := log_notified_commit key c.sha commit_log
  { s with file := r.2, emitted := s.emitted ++ [c.sha] }

/-- Insertion step of the ascending sort.  The source sorts with
`new_commits.sort(key=lambda commit: commit['commit']['committer']['date'])`
(mitten.py:501); only the resulting ascending order by `committed_at`
matters to any claim (no claim concerns the relative order of
equal-timestamp records), so a plain insertion sort embeds it. -/
def insertByDate (c : Commit) : List Commit → List Commit
  | [] => [c]
  | d :: ds =>
    if c.committed_at < d.committed_at then c :: d :: ds
    else d :: insertByDate c ds

/-- Ascending sort by `committed_at` (mitten.py:501). -/
def sortByDate : List Commit → List Commit
  | [] => []
  | c :: cs => insertByDate c (sortByDate cs)

/-- The `for commit in new_commits` loop of `check_repo` (mitten.py:507-514):
for each commit, reload the log from disk (line 509); if the commit
`has_been_logged`, the source executes `return` (line 512), ending the whole
loop and the enclosing `check_repo` call; otherwise it calls
`notify_discord` and moves to the next commit. -/
def process_commits (key : String) (s : EngineState) : List Commit → EngineState
  | [] => s
  | c :: rest =>
    let commit_log := load_commit_log s.file
    if has_been_logged key c.sha commit_log then s
    else process_commits key (notify_discord key c s) rest

/-- Embeds `check_repo` (mitten.py:494-514) with the fetch result passed in
as `new_commits` (the source obtains it from `fetch_new_commits`, using
`latest_commits.get(key)` only to build the request URL).  If the fetch
returned anything: sort ascending by timestamp, set the watermark
`latest_commits[key]` to the last (newest) sorted timestamp — note this
happens on lines 503-504, before the notification loop — then run the loop. -/
def check_repo (key : String) (new_commits : List Commit) (s : EngineState) :
    EngineState :=
  if new_commits.isEmpty then s
  else
    let sorted := sortByDate new_commits
    let latest_commit_timestamp := (sorted.getLastD defaultCommit).committed_at
    let s1 :=
      { s with latest_commits :=
          dictSet s.latest_commits key latest_commit_timestamp }
    process_commits key s1 sorted

/-- Embeds `initialize_repo_log` (mitten.py:271-303), with the result of
`fetch_all_commits` passed in as `commits` (first element = first record the
remote returned, i.e. the newest commit under the remote's newest-first
order, which line 295 relies on: `commits[0]['commit']['committer']['date']`).
Every returned SHA is marked `True` in the log, the log is saved, and the
watermark is set from `commits[0]` when any commit was returned.  The
webhooks this function sends are repo-initialization summaries
(`notify_discord_repo_init`), never per-commit notifications, so `emitted`
is untouched. -/
def init_repo_log (key : String) (commits : List Commit) (s : EngineState) :
    EngineState :=
  let commit_log := load_commit_log s.file
  let log1 :=
    if (dictGet commit_log key).isNone then dictSet commit_log key []
    else commit_log
  let log2 := commits.foldl (fun l c => logSet key c.sha l) log1
  { file := save_commit_log log2
    latest_commits :=
      match commits with
      | [] => s.latest_commits
      | c0 :: _ => dictSet s.latest_commits key c0.committed_at
    emitted := s.emitted }

/-- One scripted HTTP response to a commits request: `ok body nextLink`
(2xx, with the parsed body and the `Link` header's `next` URL if present),
`quota waitSeconds` (status 403 with `X-RateLimit-Reset`; `waitSeconds` is
`reset_time - time.time()` as the source computes it), or `httpError code`
(any other non-2xx status). -/
inductive HttpResult where
  | ok (body : List Commit) (nextLink : Option String)
  | quota (waitSeconds : Nat)
  | httpError (code : Nat)
deriving DecidableEq

/-- Result of a fetch operation: the commits, or a propagated
`requests.HTTPError` carrying the status code (raised by
`response.raise_for_status()`), or the scripted responses ran out (a model
artifact, not a source behavior). -/
inductive FetchOutcome where
  | success (commits : List Commit)
  | fetchError (code : Nat)
  | outOfScript
deriving DecidableEq

/-- Total seconds slept by the rate-limit wait loop of `fetch_all_commits`
(mitten.py:249-252): `while wait_time > 0: time.sleep(5); wait_time -= 5`,
i.e. 5-second bounded increments totalling the least multiple of 5 that is
at least `waitSeconds`. -/
def waitSlices (waitSeconds : Nat) : Nat :=
  5 * ((waitSeconds + 4) / 5)

/-- Embeds `fetch_all_commits` (mitten.py:235-268) over a script of
responses.  A 403 response triggers the wait loop and then `continue` —
the same request is retried (next scripted response, accumulator and
pagination position unchanged).  Any other non-2xx response propagates via
`raise_for_status`.  A 2xx response extends the accumulator and follows the
`Link: next` URL if present, else the fetch completes.  Returns the outcome
and the total seconds spent suspended. -/
def fetch_all_commits (script : List HttpResult) (acc : List Commit) :
    FetchOutcome × Nat :=
  match script with
  | [] => (.outOfScript, 0)
  | .quota w :: rest =>
    let p := fetch_all_commits rest acc
    (p.1, waitSlices w + p.2)
  | .httpError code :: _ => (.fetchError code, 0)
  | .ok body (some _) :: rest => fetch_all_commits rest (acc ++ body)
  | .ok body none :: _ => (.success (acc ++ body), 0)

/-- Embeds the commits request of `fetch_new_commits` (mitten.py:185-232):
the request is followed directly by `response.raise_for_status()` with no
status-403 branch and no wait loop, so every non-2xx response — including a
quota-exceeded 403 — propagates to the caller as an error.  (The author /
repo-metadata decoration of the returned records is presentation data not
read by the change-detection core and is not modelled.) -/
def fetch_new_commits (response : HttpResult) : FetchOutcome :=
  match response with
  | .ok body _ => .success body
  | .quota _ => .fetchError 403
  | .httpError code => .fetchError code

/-- The backoff test of the main loop (mitten.py:565):
`requests_remaining < 10 * len(parsed_repos)`. -/
def should_backoff (requests_remaining repoCount : Nat) : Bool :=
  requests_remaining < 10 * repoCount

/-- One iteration of the main loop (mitten.py:562-584), with the quota
snapshot passed in as `requests_remaining` and fetch results supplied by
`fetch`.  When the backoff test fires, the iteration does no per-key work
(`continue`) and sleeps `CHECK_INTERVAL * 2`; otherwise it runs `check_repo`
for every watched key in order and sleeps `CHECK_INTERVAL`.  Returns the
final engine state, the keys for which `check_repo` ran, and the seconds
slept. -/
def main_cycle (requests_remaining : Nat) (repos : List String)
    (fetch : String → List Commit) (CHECK_INTERVAL : Nat) (s : EngineState) :
    EngineState × List String × Nat :=
  if should_backoff requests_remaining repos.length then
    (s, [], CHECK_INTERVAL * 2)
  else
    (repos.foldl (fun st k => check_repo k (fetch k) st) s, repos,
      CHECK_INTERVAL)

/-- Boolean test that `sep` is a leading segment of the second list
(used to locate the first occurrence of a separator, as Python's
`sep in s` / `s.split(sep, 1)` pair does). -/
def leadsWith : List Char → List Char → Bool
  | [], _ => true
  | _ :: _, [] => false
  | a :: as, b :: bs => a == b && leadsWith as bs

/-- Split at the first occurrence of `sep`: Python
`s.split(sep, 1)` returning both halves when `sep in s`, `none` otherwise.
Messages are embedded as `List Char`. -/
def firstSplit (sep : List Char) : List Char → Option (List Char × List Char)
  | [] => none
  | c :: rest =>
    if leadsWith sep (c :: rest) then some ([], (c :: rest).drop sep.length)
    else
      match firstSplit sep rest with
      | some p => some (c :: p.1, p.2)
      | none => none

/-- The sentinel body string the source assigns when a commit message has no
newline (mitten.py:416). -/
def splitSentinel : List Char := "No description provided".toList

/-- Embeds the summary/body split of `notify_discord` (mitten.py:410-416):
split at the first `'\n\n'` if present, else at the first `'\n'` if
present, else the whole message is the summary and the body is the sentinel
string `'No description provided'`. -/
def splitMessage (commit_message : List Char) : List Char × List Char :=
  match firstSplit ['\n', '\n'] commit_message with
  | some p => p
  | none =>
    match firstSplit ['\n'] commit_message with
    | some p => p
    | none => (commit_message, splitSentinel)

/-- Embeds mitten.py:450: the embed gets a Description field exactly when
the body differs from the sentinel string. -/
def descriptionIncluded (commit_description : List Char) : Bool :=
  commit_description != splitSentinel

/-- Modelled from the spec's words, for comparison with `splitMessage`
(refinement target for claim C5): the body is an explicit `none` — not a
sentinel string — when the message contains no natural split point. -/
def spec_splitMessage (commit_message : List Char) :
    List Char × Option (List Char) :=
  match firstSplit ['\n', '\n'] commit_message with
  | some p => (p.1, some p.2)
  | none =>
    match firstSplit ['\n'] commit_message with
    | some p => (p.1, some p.2)
    | none => (commit_message, none)

/-- Fixture: a watched key. -/
def keyW : String := "acme/widgets:main"

/-- Fixture commits with distinct ascending timestamps. -/
def commit3 : Commit := ⟨"sha3", 3⟩

/-- Fixture commit, timestamp 4. -/
def commit4 : Commit := ⟨"sha4", 4⟩

/-- Fixture commit, timestamp 5. -/
def commit5 : Commit := ⟨"sha5", 5⟩

/-- Fixture engine state: `sha3` already logged for `keyW`, watermark 3,
nothing emitted. -/
def stateSeen3 : EngineState :=
  ⟨FileState.full [(keyW, [("sha3", true)])], [(keyW, 3)], []⟩

/-- Fixture: a durable log holding one previously recorded key and SHA. -/
def priorLog : CommitLog := [(keyW, [("abc123", true)])]

/-- Fixture: bootstrap fetch result, newest first, as the remote returns. -/
def commitsW : List Commit := [⟨"b", 2⟩, ⟨"a", 1⟩]

/-- Fixture: a fresh engine state with no durable file. -/
def stateFresh : EngineState := ⟨FileState.absent, [], []⟩

/-- Setting a key and reading it back yields the new value. -/
theorem dictGet_dictSet_self {β : Type} (m : List (String × β)) (k : String)
    (v : β) : dictGet (dictSet m k v) k = some v := by
  induction m with
  | nil => simp [dictSet, dictGet]
  | cons hd tl ih =>
    obtain ⟨k', v'⟩ := hd
    by_cases h : k' = k
    · simp [dictSet, dictGet, h]
    · simp [dictSet, dictGet, h, ih]

/-- Setting a key leaves every other key's binding unchanged. -/
theorem dictGet_dictSet_ne {β : Type} (m : List (String × β)) (k k' : String)
    (v : β) (h : k' ≠ k) : dictGet (dictSet m k v) k' = dictGet m k' := by
  induction m with
  | nil => simp [dictSet, dictGet, Ne.symm h]
  | cons hd tl ih =>
    obtain ⟨a, b⟩ := hd
    by_cases ha : a = k
    · subst ha
      simp [dictSet, dictGet, Ne.symm h]
    · simp [dictSet, dictGet, ha, ih]

/-- Marking a SHA makes `has_been_logged` report it. -/
theorem has_been_logged_logSet_self (key sha : String) (log : CommitLog) :
    has_been_logged key sha (logSet key sha log) = true := by
  simp [has_been_logged, logSet, dictGet_dictSet_self]

/-- Marking any SHA preserves every SHA already reported as logged. -/
theorem has_been_logged_logSet_mono (key sha key' sha' : String)
    (log : CommitLog) (h : has_been_logged key sha log = true) :
    has_been_logged key sha (logSet key' sha' log) = true := by
  by_cases hk : key' = key
  · subst hk
    by_cases hs : sha' = sha
    · subst hs
      exact has_been_logged_logSet_self key' sha' log
    · simp only [has_been_logged, logSet] at h ⊢
      rw [dictGet_dictSet_self, Option.getD_some,
        dictGet_dictSet_ne _ _ _ _ (fun hh => hs hh.symm)]
      exact h
  · simp only [has_been_logged, logSet] at h ⊢
    rw [dictGet_dictSet_ne _ _ _ _ (fun hh => hk hh.symm)]
    exact h

/-- Folding `logSet` over a batch preserves every SHA already logged. -/
theorem has_been_logged_foldl_mono (key0 key sha : String)
    (commits : List Commit) (log : CommitLog)
    (h : has_been_logged key sha log = true) :
    has_been_logged key sha
      (commits.foldl (fun l c => logSet key0 c.sha l) log) = true := by
  induction commits generalizing log with
  | nil => simpa using h
  | cons c cs ih =>
    exact ih _ (has_been_logged_logSet_mono key sha key0 c.sha log h)

/-- After folding `logSet` over a batch, every SHA of the batch is logged. -/
theorem has_been_logged_foldl_mem (key : String) (commits : List Commit)
    (log : CommitLog) (c : Commit) (hc : c ∈ commits) :
    has_been_logged key c.sha
      (commits.foldl (fun l d => logSet key d.sha l) log) = true := by
  induction commits generalizing log with
  | nil => cases hc
  | cons d ds ih =>
    rcases List.mem_cons.mp hc with h1 | h2
    · subst h1
      exact has_been_logged_foldl_mono key key c.sha ds _
        (has_been_logged_logSet_self key c.sha log)
    · exact ih _ h2

/-- Claim C7: for every key and SHA, once marking the SHA as seen has
persisted (`log_notified_commit` returned), a subsequent
`has_been_logged` check for that key and SHA returns true, both on the
updated in-memory log and after discarding it and reloading from the
durable store — the persist/load round trip preserves membership. -/
theorem C7_mark_seen_then_reload_reports_seen (key sha : String)
    (log : CommitLog) :
    has_been_logged key sha (log_notified_commit key sha log).1 = true
    ∧ has_been_logged key sha
        (load_commit_log (log_notified_commit key sha log).2) = true := by
  refine ⟨has_been_logged_logSet_self key sha log, ?_⟩
  simpa [log_notified_commit, save_commit_log, load_commit_log] using
    has_been_logged_logSet_self key sha log

/-- Claim C8: loading the commit log returns an empty log — rather than
failing — when the durable state is missing or unparsable, and in every
other case returns the parsed stored mapping. -/
theorem C8_load_tolerates_missing_and_corrupt :
    load_commit_log FileState.absent = []
    ∧ load_commit_log FileState.corrupt = []
    ∧ ∀ log : CommitLog, load_commit_log (FileState.full log) = log :=
  ⟨rfl, rfl, fun _ => rfl⟩

/-- Claim C10: the seen-check on the commit log is total (it is a Lean
function, so it never raises): it returns false when the key has no entry,
false when the key's entry does not contain the SHA, and the stored boolean
otherwise. -/
theorem C10_has_been_logged_total (key sha : String) (log : CommitLog) :
    (dictGet log key = none → has_been_logged key sha log = false)
    ∧ (∀ m : ShaMap, dictGet log key = some m → dictGet m sha = none →
        has_been_logged key sha log = false)
    ∧ (∀ (m : ShaMap) (b : Bool), dictGet log key = some m →
        dictGet m sha = some b → has_been_logged key sha log = b) := by
  refine ⟨?_, ?_, ?_⟩ <;> intros <;> simp_all [has_been_logged, dictGet]

/-- Witness for C10 at concrete inputs: stored true is returned, a missing
SHA yields false, a missing key yields false. -/
theorem C10_witness :
    has_been_logged "k" "s" [("k", [("s", true)])] = true
    ∧ has_been_logged "k" "z" [("k", [("s", true)])] = false
    ∧ has_been_logged "j" "s" [("k", [("s", true)])] = false :=
  ⟨(C10_has_been_logged_total "k" "s" [("k", [("s", true)])]).2.2
      [("s", true)] true (by decide) (by decide),
    (C10_has_been_logged_total "k" "z" [("k", [("s", true)])]).2.1
      [("s", true)] (by decide) (by decide),
    (C10_has_been_logged_total "j" "s" [("k", [("s", true)])]).1 (by decide)⟩

/-- Claim C2: for a key not present in the commit log at startup, bootstrap
(`initialize_repo_log`, embedded as `init_repo_log`) persists every SHA of
the fetched complete history as seen, sets the in-memory watermark to the
timestamp of the newest commit in that history (the source reads it from
`commits[0]`, so the fetch result's head is the newest record, matching the
remote's newest-first order), and dispatches zero per-commit notifications. -/
theorem C2_bootstrap_ingests_history_silently (key : String)
    (commits : List Commit) (s : EngineState)
    (_hnew : dictGet (load_commit_log s.file) key = none)
    (hne : commits ≠ [])
    (hord : ∀ c ∈ commits,
      c.committed_at ≤ (commits.headD defaultCommit).committed_at) :
    (∀ c ∈ commits, has_been_logged key c.sha
        (load_commit_log (init_repo_log key commits s).file) = true)
    ∧ (∃ t, dictGet (init_repo_log key commits s).latest_commits key = some t
        ∧ (∀ c ∈ commits, c.committed_at ≤ t)
        ∧ (∃ c ∈ commits, c.committed_at = t))
    ∧ (init_repo_log key commits s).emitted = s.emitted := by
  obtain ⟨c0, cs, rfl⟩ : ∃ c0 cs, commits = c0 :: cs := by
    cases commits with
    | nil => exact absurd rfl hne
    | cons a l => exact ⟨a, l, rfl⟩
  refine ⟨?_, ⟨c0.committed_at, ?_, ?_, c0, List.mem_cons_self c0 cs, rfl⟩, rfl⟩
  · intro c hc
    simp only [init_repo_log, save_commit_log, load_commit_log]
    exact has_been_logged_foldl_mem key (c0 :: cs) _ c hc
  · simp only [init_repo_log]
    exact dictGet_dictSet_self s.latest_commits key c0.committed_at
  · simpa using hord

/-- Witness for C2 at a concrete input: a fresh key, two commits returned
newest-first; both SHAs end up logged, the watermark is the newest
timestamp, nothing is emitted. -/
theorem C2_witness :
    (∀ c ∈ commitsW, has_been_logged "k" c.sha
        (load_commit_log (init_repo_log "k" commitsW stateFresh).file) = true)
    ∧ (∃ t, dictGet (init_repo_log "k" commitsW stateFresh).latest_commits "k"
          = some t
        ∧ (∀ c ∈ commitsW, c.committed_at ≤ t)
        ∧ (∃ c ∈ commitsW, c.committed_at = t))
    ∧ (init_repo_log "k" commitsW stateFresh).emitted = stateFresh.emitted :=
  C2_bootstrap_ingests_history_silently "k" commitsW stateFresh (by decide)
    (by decide) (by decide)

/-- Claim C1 is violated by the code (code bug): `fetch_new_commits` returns
`[T5, T3]` out of order, `T3` already seen.  The claim (and the spec's own
example) says the poller sorts to `[T3, T5]`, skips the seen `T3`, and
emits exactly `T5`.  The source instead executes `return` inside the loop
on the already-logged `T3` (mitten.py:512), so the run emits nothing and
never persists `sha5` — an already-seen record suppresses the notification
of a later unseen record in the same run. -/
theorem C1_seen_record_aborts_whole_run :
    (check_repo keyW [commit5, commit3] stateSeen3).emitted = []
    ∧ has_been_logged keyW "sha5"
        (load_commit_log (check_repo keyW [commit5, commit3] stateSeen3).file)
        = false := by
  decide

/-- Claim C3 is violated by the code (code bug): `check_repo` assigns
`latest_commits[key]` the newest sorted timestamp before the notification
loop runs (mitten.py:503-504).  With `sha3` already seen and fetch result
`[T3, T4, T5]`, the loop returns at `T3`, leaving the watermark at 5 — a
timestamp strictly later than that of the fetched commit `sha4`, whose SHA
was never persisted to the durable log. -/
theorem C3_watermark_passes_unpersisted_sha :
    dictGet (check_repo keyW [commit3, commit4, commit5]
        stateSeen3).latest_commits keyW = some 5
    ∧ has_been_logged keyW "sha4"
        (load_commit_log (check_repo keyW [commit3, commit4, commit5]
          stateSeen3).file) = false
    ∧ commit4.committed_at < 5 := by
  decide

/-- Claim C9: when the remaining quota is below the watched-key count times
the per-cycle request cost (10 in the source), the main-loop iteration does
no per-key work and sleeps a doubled interval; otherwise `check_repo` runs
for every watched key, in order, and the iteration sleeps the nominal
interval. -/
theorem C9_low_quota_skips_cycle (requests_remaining : Nat)
    (repos : List String) (fetch : String → List Commit)
    (CHECK_INTERVAL : Nat) (s : EngineState) :
    (requests_remaining < 10 * repos.length →
      main_cycle requests_remaining repos fetch CHECK_INTERVAL s
        = (s, [], CHECK_INTERVAL * 2))
    ∧ (10 * repos.length ≤ requests_remaining →
      main_cycle requests_remaining repos fetch CHECK_INTERVAL s
        = (repos.foldl (fun st k => check_repo k (fetch k) st) s, repos,
            CHECK_INTERVAL)) := by
  constructor
  · intro h
    simp [main_cycle, should_backoff, h]
  · intro h
    simp [main_cycle, should_backoff, Nat.not_lt.mpr h]

/-- Witness for C9 at concrete inputs: 3 remaining requests with one watched
key backs off (nothing processed, doubled sleep); 200 remaining requests
processes the key and sleeps the nominal interval. -/
theorem C9_witness :
    main_cycle 3 [keyW] (fun _ => []) 60 stateFresh = (stateFresh, [], 120)
    ∧ main_cycle 200 [keyW] (fun _ => []) 60 stateFresh
        = (stateFresh, [keyW], 60) := by
  constructor
  · exact (C9_low_quota_skips_cycle 3 [keyW] (fun _ => []) 60 stateFresh).1
      (by decide)
  · exact ((C9_low_quota_skips_cycle 200 [keyW] (fun _ => []) 60
      stateFresh).2 (by decide)).trans (by decide)

/-- Claim C4 counterexample: the incremental fetch (`fetch_new_commits`)
has no quota branch — `response.raise_for_status()` propagates a 403
quota-exceeded response to the caller as an error instead of suspending
until the reset time and retrying, contradicting the claim that BOTH fetch
operations suspend-and-retry on quota exhaustion. -/
theorem C4_fetch_new_propagates_quota :
    fetch_new_commits (HttpResult.quota 30) = FetchOutcome.fetchError 403 :=
  rfl

/-- Claim C4 amended: only the full-history fetch (`fetch_all_commits`)
handles quota exhaustion internally — a 403 response makes it suspend in
bounded 5-second increments for at least the remaining wait and retry the
same request, while any other HTTP error class propagates as a fetch error
without retry; the incremental fetch (`fetch_new_commits`) performs no
internal retry at all and propagates every HTTP error class, including
quota-exceeded, to the caller. -/
theorem C4_only_full_fetch_retries_quota (w code : Nat)
    (rest : List HttpResult) (acc body : List Commit) :
    (fetch_all_commits (HttpResult.quota w :: rest) acc).1
        = (fetch_all_commits rest acc).1
    ∧ (fetch_all_commits (HttpResult.quota w :: rest) acc).2
        = waitSlices w + (fetch_all_commits rest acc).2
    ∧ w ≤ waitSlices w
    ∧ fetch_all_commits (HttpResult.httpError code :: rest) acc
        = (FetchOutcome.fetchError code, 0)
    ∧ fetch_new_commits (HttpResult.quota w) = FetchOutcome.fetchError 403
    ∧ fetch_new_commits (HttpResult.httpError code)
        = FetchOutcome.fetchError code
    ∧ fetch_new_commits (HttpResult.ok body none)
        = FetchOutcome.success body := by
  refine ⟨rfl, rfl, ?_, rfl, rfl, rfl, rfl⟩
  unfold waitSlices
  have h1 := Nat.div_add_mod (w + 4) 5
  have h2 : (w + 4) % 5 < 5 := Nat.mod_lt _ (by norm_num)
  omega

/-- A separator whose first character occurs nowhere in the message is never
found. -/
theorem firstSplit_none_of_missing_head (c0 : Char) (sep msg : List Char)
    (h : ∀ c ∈ msg, c ≠ c0) : firstSplit (c0 :: sep) msg = none := by
  induction msg with
  | nil => rfl
  | cons c rest ih =>
    have hc : (c0 == c) = false := by
      simp [Ne.symm (h c (List.mem_cons_self c rest))]
    have ihr : firstSplit (c0 :: sep) rest = none :=
      ih fun c' hc' => h c' (List.mem_cons_of_mem c hc')
    simp [firstSplit, leadsWith, hc, ihr]

/-- Claim C5 counterexample: a commit message with no newline gets the
sentinel body string `'No description provided'` — a string value, not an
explicitly absent body.  Moreover the sentinel is indistinguishable from a
genuine body equal to it: the message consisting of a summary plus exactly
that body yields the same split as a bodiless message (and its Description
field is dropped, mitten.py:450), whereas the spec-modelled split keeps the
two cases apart (`none` versus `some`). -/
theorem C5_body_is_sentinel_string :
    splitMessage ['S'] = (['S'], splitSentinel)
    ∧ spec_splitMessage ['S'] = (['S'], none)
    ∧ splitMessage (['S'] ++ ['\n', '\n'] ++ splitSentinel)
        = (['S'], splitSentinel)
    ∧ spec_splitMessage (['S'] ++ ['\n', '\n'] ++ splitSentinel)
        = (['S'], some splitSentinel)
    ∧ descriptionIncluded
        (splitMessage (['S'] ++ ['\n', '\n'] ++ splitSentinel)).2 = false := by
  decide

/-- Claim C5 amended: when a commit message contains no natural split point
(no newline), the split yields the message as the summary and the sentinel
string `'No description provided'` as the body — absence is represented by
this sentinel string, not by an explicitly absent value — and the Discord
embed omits the Description field exactly when the body equals the
sentinel. -/
theorem C5_no_newline_gives_sentinel_body (msg : List Char)
    (h : ∀ c ∈ msg, c ≠ '\n') :
    splitMessage msg = (msg, splitSentinel)
    ∧ descriptionIncluded (splitMessage msg).2 = false := by
  have h2 : firstSplit ['\n', '\n'] msg = none :=
    firstSplit_none_of_missing_head '\n' ['\n'] msg h
  have h1 : firstSplit ['\n'] msg = none :=
    firstSplit_none_of_missing_head '\n' [] msg h
  constructor
  · simp [splitMessage, h1, h2]
  · simp [splitMessage, h1, h2, descriptionIncluded]

/-- Witness for C5 amended at a concrete input: the newline-free message
`"hi"` keeps its text as the summary, gets the sentinel body, and its
Description field is omitted. -/
theorem C5_witness :
    splitMessage ['h', 'i'] = (['h', 'i'], splitSentinel)
    ∧ descriptionIncluded (splitMessage ['h', 'i']).2 = false :=
  C5_no_newline_gives_sentinel_body ['h', 'i'] (by decide)

/-- Claim C6 counterexample: `save_commit_log` rewrites `commit_log.json`
in place — `open('w')` truncates, then `json.dump` writes — with no
write-to-temp-then-rename step, so the durable trace of a persist (here,
one recording a new SHA for a different key) passes through the `corrupt`
state; a persist interrupted there leaves a file from which loading no
longer reports the previously recorded key's SHA, i.e. an interrupted
persist call truncates entries previously recorded for other keys. -/
theorem C6_interrupted_persist_loses_prior_keys :
    FileState.corrupt ∈ save_commit_log_trace (logSet "other/repo:dev" "zzz" priorLog)
    ∧ has_been_logged keyW "abc123" (load_commit_log FileState.corrupt) = false
    ∧ has_been_logged keyW "abc123" (load_commit_log (FileState.full priorLog))
        = true := by
  decide

/-- Claim C6 amended: persistence writes the log file in place (truncate,
then write), not via write-to-temp-then-rename.  Every durable state an
interrupted persist can leave behind is either the completed full dump or
an unparsable file that loads as an empty log — so an interrupted write
never produces a durable state recording any SHA as seen, but it can erase
entries previously recorded for other keys; a completed persist stores
exactly the in-memory log, preserving the entries it holds for other keys. -/
theorem C6_persist_is_truncate_then_write (commit_log : CommitLog) :
    (∀ st ∈ save_commit_log_trace commit_log,
      st = FileState.full commit_log
      ∨ ∀ k s, has_been_logged k s (load_commit_log st) = false)
    ∧ load_commit_log (save_commit_log commit_log) = commit_log := by
  refine ⟨?_, rfl⟩
  intro st hst
  rcases List.mem_pair.mp hst with h | h
  · subst h
    exact Or.inr fun k s => rfl
  · exact Or.inl h

/-- Witness for C6 amended at a concrete input: the truncated state reached
while persisting `priorLog` loads as a log in which nothing is seen, and
the completed persist round-trips. -/
theorem C6_witness :
    (FileState.corrupt = FileState.full priorLog
      ∨ ∀ k s, has_been_logged k s (load_commit_log FileState.corrupt) = false)
    ∧ load_commit_log (save_commit_log priorLog) = priorLog :=
  ⟨(C6_persist_is_truncate_then_write priorLog).1 FileState.corrupt
      (by decide),
    (C6_persist_is_truncate_then_write priorLog).2⟩

end Mitten
